import Mathlib

/-!
A verification model of the `ratatype` typing-trainer engine.

This file gives a shallow embedding, in Lean, of the typing-session engine of
the `ratatype` terminal typing trainer (`src/main.rs`), and proves properties
of the embedded definitions.

Modelling conventions:

* `Instant` and `Duration` are modelled as natural numbers of **nanoseconds**
  (`Duration::as_nanos`); `Duration::as_millis` is `n / 1000000` and
  `as_secs_f64` is the rational `n / 10^9`.  Rust's
  `Instant::duration_since` saturates at zero, which is exactly `Nat`
  subtraction.
* `f64` arithmetic on elapsed seconds and WPM values is modelled with exact
  rational numbers (`ℚ`).  Every comparison the proofs depend on is between
  quantities that are exactly representable, so the rational model agrees
  with the floating-point program on those comparisons.
* `Instant::now()`: `handle_key_event` reads the clock once and threads the
  value through; the model takes this instant as the explicit parameter
  `now` and reuses it for the inner `update_wpm` and
  `start_timing_current_key` calls, which in Rust re-read the clock
  nanoseconds later.
* The `HashMap<char, KeyMetrics>` is modelled as an association list without
  duplicate keys; `entry(c).or_insert_with(KeyMetrics::new)` followed by a
  mutation is `entryModify`.  Iteration order never matters for the
  properties proved here (only minima, maxima and memberships are used).
* Text generation (`generate_*_text`) draws random indices from
  `rand::thread_rng`; the random stream is modelled as an arbitrary function
  `rng : Nat → Nat`, with `gen_range(0..n)` taken as `rng i % n` for the
  `i`-th draw.  `gen_range` on an empty range panics; a panicking execution
  is modelled as `none`.
* The embedded asset `data/google-10000.txt` (`include_str!`) is not part of
  the sources; the raw word-list content is therefore a parameter of
  `load_google10k_words`.
-/

/-- `KeyMetrics` from `src/main.rs`: per-expected-character latency samples
(in nanoseconds, appended in arrival order) and an error count. -/
structure KeyMetrics where
  times : List Nat
  errors : Nat
  deriving Repr, DecidableEq

/-- `KeyMetrics::new`. -/
def KeyMetrics.new : KeyMetrics :=
  { times := [], errors := 0 }

/-- `KeyMetrics::average_time`: `None` on an empty sample list, otherwise the
integer (nanosecond) division of the total by the count. -/
def KeyMetrics.average_time (m : KeyMetrics) : Option Nat :=
  if m.times.isEmpty then none
  else some (m.times.sum / m.times.length)

/-- `HashMap::entry(c).or_insert_with(KeyMetrics::new)` followed by applying
the mutation `f` to the entry: modify the (unique) binding of `c`, or append
a fresh one obtained by mutating `KeyMetrics.new`. -/
def entryModify (m : List (Char × KeyMetrics)) (c : Char) (f : KeyMetrics → KeyMetrics) :
    List (Char × KeyMetrics) :=
  match m with
  | [] => [(c, f KeyMetrics.new)]
  | p :: rest => if p.1 = c then (p.1, f p.2) :: rest else p :: entryModify rest c f

/-- `self.key_metrics.entry(c).or_insert_with(KeyMetrics::new).times.push(t)`. -/
def recordTime (m : List (Char × KeyMetrics)) (c : Char) (t : Nat) :
    List (Char × KeyMetrics) :=
  entryModify m c (fun k => { k with times := k.times ++ [t] })

/-- `self.key_metrics.entry(c).or_insert_with(KeyMetrics::new).errors += 1`. -/
def recordError (m : List (Char × KeyMetrics)) (c : Char) :
    List (Char × KeyMetrics) :=
  entryModify m c (fun k => { k with errors := k.errors + 1 })

/-- `HashMap::get`: the value bound to `c`, if any. -/
def alistGet (m : List (Char × KeyMetrics)) (c : Char) : Option KeyMetrics :=
  match m with
  | [] => none
  | p :: rest => if p.1 = c then some p.2 else alistGet rest c

/-- The keystroke inputs the engine reacts to (`KeyCode::Char`,
`KeyCode::Backspace`, and the ignored rest). -/
inductive KeyCode where
  | char (c : Char)
  | backspace
  | other
  deriving Repr, DecidableEq

/-- The session state of `struct App` (the fields the engine reads or
writes; rendering-only caches such as `target_text : String` are represented
by the character vector `target_chars` the code itself uses for all logic). -/
structure App where
  target_chars : List Char
  user_input : List Char
  current_position : Nat
  start_time : Option Nat
  wpm_history : List ℚ
  wpm_data_points : List (ℚ × ℚ)
  test_duration : Nat
  is_finished : Bool
  errors : Nat
  total_keystrokes : Nat
  last_wpm_update : Option Nat
  require_correction : Bool
  correction_attempts : List Bool
  key_metrics : List (Char × KeyMetrics)
  last_keystroke_time : Option Nat
  current_key_start_time : Option Nat
  deriving Repr

/-- `App::start_timing_current_key` at instant `now`. -/
def App.start_timing_current_key (a : App) (now : Nat) : App :=
  if a.current_position < a.target_chars.length then
    { a with current_key_start_time := some now }
  else a

/-- `App::new` after `generate_text` has produced `target` (text generation
is randomized I/O, modelled separately below): the freshly constructed
session state, with the construction-time instant `t0`. -/
def App.new (t0 : Nat) (target : List Char) (require_correction : Bool)
    (duration_secs : Nat) : App :=
  let a : App :=
    { target_chars := target
      user_input := []
      current_position := 0
      start_time := none
      wpm_history := []
      wpm_data_points := []
      test_duration := duration_secs
      is_finished := false
      errors := 0
      total_keystrokes := 0
      last_wpm_update := none
      require_correction := require_correction
      correction_attempts := List.replicate target.length false
      key_metrics := []
      last_keystroke_time := none
      current_key_start_time := none }
  a.start_timing_current_key t0

/-- `App::update_wpm` at instant `now` (Rust re-reads the clock here;
see the module conventions). -/
def App.update_wpm (a : App) (now : Nat) : App :=
  match a.start_time with
  | none => a
  | some start =>
    let elapsed_seconds : ℚ := ((now - start : Nat) : ℚ) / 10 ^ 9
    let should_update : Bool :=
      match a.last_wpm_update with
      | some last_update => decide (((now - last_update : Nat) : ℚ) / 10 ^ 9 ≥ 1)
      | none => decide (elapsed_seconds ≥ 2)
    if should_update = true ∧ elapsed_seconds ≥ 2 then
      let elapsed_minutes := elapsed_seconds / 60
      let words_typed : ℚ := (a.current_position : ℚ) / 5
      let wpm := words_typed / elapsed_minutes
      let capped_wpm := min wpm 500
      { a with
        wpm_history := a.wpm_history ++ [capped_wpm]
        wpm_data_points := a.wpm_data_points ++ [(elapsed_seconds, capped_wpm)]
        last_wpm_update := some now }
    else a

/-- The `if self.start_time.is_none()` block at the head of
`App::handle_key_event`: on the first keystroke of the session, set
`start_time` and `last_keystroke_time` and (re)start the per-key timer. -/
def App.on_first_keystroke (a : App) (now : Nat) : App :=
  if a.start_time.isNone then
    ({ a with start_time := some now,
              last_keystroke_time := some now }).start_timing_current_key now
  else a

/-- The `KeyCode::Char(c)` arm of `App::handle_key_event`. -/
def App.on_char (a : App) (now : Nat) (c : Char) : App :=
  if a.current_position < a.target_chars.length then
    let target_char := a.target_chars.getD a.current_position ' '
    -- always record the response time for the expected character
    let a :=
      match a.current_key_start_time with
      | some key_start_time =>
        { a with key_metrics :=
            recordTime a.key_metrics target_char (now - key_start_time) }
      | none => a
    let a :=
      if a.require_correction then
        -- in correction mode, only accept the correct character
        if c = target_char then
          (({ a with user_input := a.user_input ++ [c],
                     total_keystrokes := a.total_keystrokes + 1,
                     current_position :=
                       a.current_position + 1 }).start_timing_current_key
              now).update_wpm now
        else
          let a :=
            { a with errors := a.errors + 1,
                     total_keystrokes := a.total_keystrokes + 1,
                     key_metrics := recordError a.key_metrics target_char }
          if a.current_position < a.correction_attempts.length then
            { a with correction_attempts :=
                a.correction_attempts.set a.current_position true }
          else a
      else
        -- in normal mode, allow proceeding with errors
        let a := { a with user_input := a.user_input ++ [c],
                          total_keystrokes := a.total_keystrokes + 1 }
        if c = target_char then
          (({ a with current_position :=
                a.current_position + 1 }).start_timing_current_key
              now).update_wpm now
        else
          let a :=
            { a with errors := a.errors + 1,
                     key_metrics := recordError a.key_metrics target_char }
          let a :=
            if a.current_position < a.correction_attempts.length then
              { a with correction_attempts :=
                  a.correction_attempts.set a.current_position true }
            else a
          ({ a with current_position :=
              a.current_position + 1 }).start_timing_current_key now
    let a := { a with last_keystroke_time := some now }
    if a.target_chars.length ≤ a.current_position then
      { a with is_finished := true }
    else a
  else a

/-- The `KeyCode::Backspace` arm of `App::handle_key_event`. -/
def App.on_backspace (a : App) (now : Nat) : App :=
  let a :=
    if a.user_input.isEmpty then a
    else
      let a := { a with user_input := a.user_input.dropLast,
                        total_keystrokes := a.total_keystrokes + 1 }
      if 0 < a.current_position then
        ({ a with current_position :=
            a.current_position - 1 }).start_timing_current_key now
      else a
  { a with last_keystroke_time := some now }

/-- `App::handle_key_event` at instant `now`, assembled from the arms
above exactly as in the source. -/
def App.handle_key_event (a : App) (now : Nat) (key : KeyCode) : App :=
  if a.is_finished then a
  else
    let a := a.on_first_keystroke now
    match key with
    | KeyCode.char c => a.on_char now c
    | KeyCode.backspace => a.on_backspace now
    | KeyCode.other => a

/-- A timed keystroke event: the instant of the `Instant::now()` read and the
key code delivered. -/
abbrev Event := Nat × KeyCode

/-- Folding a sequence of keystroke events through `handle_key_event`. -/
def App.applyEvents (a : App) (evs : List Event) : App :=
  evs.foldl (fun s e => s.handle_key_event e.1 e.2) a

/-- `App::get_accuracy` (percentages as exact rationals). -/
def App.get_accuracy (a : App) : ℚ :=
  if a.total_keystrokes = 0 then 100
  else
    let correct_keystrokes := a.total_keystrokes - a.errors
    (correct_keystrokes : ℚ) / (a.total_keystrokes : ℚ) * 100

/-- The `ratatui` color values produced by the two heatmap classifiers.
`lightGreen` is `Color::Rgb(144, 238, 144)` and `lightRed` is
`Color::Rgb(255, 99, 71)` in the source. -/
inductive TuiColor where
  | green | lightGreen | yellow | lightRed | red | gray | darkGray
  deriving Repr, DecidableEq

/-- `all_times.iter().min().unwrap()` (the `unwrap` is guarded by
`all_times.len() ≥ 2`; the value on `[]` is arbitrary). -/
def listMin : List Nat → Nat
  | [] => 0
  | x :: xs => xs.foldl Nat.min x

/-- `all_times.iter().max().unwrap()` (same guard as `listMin`). -/
def listMax : List Nat → Nat
  | [] => 0
  | x :: xs => xs.foldl Nat.max x

/-- `App::get_key_speed_color`: the speed-heatmap band of a character.
Durations are compared in whole milliseconds (`Duration::as_millis`, here
nanoseconds divided by `1000000`). -/
def App.get_key_speed_color (a : App) (key : Char) : TuiColor :=
  match alistGet a.key_metrics key with
  | none => TuiColor.darkGray -- key not used
  | some metrics =>
    match metrics.average_time with
    | none => TuiColor.gray -- no timing data
    | some avg_time =>
      let all_times : List Nat := a.key_metrics.filterMap (fun p => p.2.average_time)
      if all_times.length < 2 then TuiColor.gray -- not enough data
      else
        let min_time := listMin all_times
        let max_time := listMax all_times
        let time_range := max_time / 1000000 - min_time / 1000000
        if time_range = 0 then TuiColor.gray -- all times are the same
        else
          let relative_pos : ℚ :=
            ((avg_time / 1000000 - min_time / 1000000 : Nat) : ℚ) / (time_range : ℚ)
          if relative_pos < 33 / 100 then
            if relative_pos < 16 / 100 then TuiColor.green else TuiColor.lightGreen
          else if relative_pos < 67 / 100 then TuiColor.yellow
          else if relative_pos > 83 / 100 then TuiColor.red
          else TuiColor.lightRed

/-- `App::get_key_accuracy_color`: the accuracy-heatmap band of a
character. -/
def App.get_key_accuracy_color (a : App) (key : Char) : TuiColor :=
  match alistGet a.key_metrics key with
  | none => TuiColor.darkGray -- key not used
  | some metrics =>
    if metrics.times.isEmpty then TuiColor.gray -- no data
    else
      let total_attempts := metrics.times.length
      let accuracy : ℚ := ((total_attempts - metrics.errors : Nat) : ℚ) / (total_attempts : ℚ)
      if accuracy ≥ 95 / 100 then TuiColor.green
      else if accuracy ≥ 85 / 100 then TuiColor.lightGreen
      else if accuracy ≥ 70 / 100 then TuiColor.yellow
      else if accuracy ≥ 50 / 100 then TuiColor.lightRed
      else TuiColor.red

/-- Stable insertion of an accuracy pair into a list sorted by descending
second component (models `sort_by(|(_, a), (_, b)| b.partial_cmp(a))`). -/
def insertDescBySnd (x : Char × ℚ) : List (Char × ℚ) → List (Char × ℚ)
  | [] => [x]
  | y :: ys => if y.2 < x.2 then x :: y :: ys else y :: insertDescBySnd x ys

/-- Sort by descending second component. -/
def sortDescBySnd (l : List (Char × ℚ)) : List (Char × ℚ) :=
  l.foldr insertDescBySnd []

/-- `App::get_most_accurate_keys`: per-key accuracy percentages for keys with
at least one latency sample, sorted descending, first `count` entries. -/
def App.get_most_accurate_keys (a : App) (count : Nat) : List (Char × ℚ) :=
  let key_accuracy : List (Char × ℚ) :=
    a.key_metrics.filterMap (fun p =>
      if p.2.times.isEmpty then none
      else
        let total_attempts := p.2.times.length
        some (p.1, ((total_attempts - p.2.errors : Nat) : ℚ) / (total_attempts : ℚ) * 100))
  (sortDescBySnd key_accuracy).take count

/-! ## Text generation

Texts and words are sequences of characters (`List Char`; all filters only
keep ASCII words, for which Rust's byte length and the character count
agree). -/

/-- `MIN_TEXT_LENGTH`. -/
def MIN_TEXT_LENGTH : Nat := 500

/-- `MIN_WORD_LENGTH`. -/
def MIN_WORD_LENGTH : Nat := 3

/-- The `while text.len() < MIN_TEXT_LENGTH` loop shared by
`generate_word_text` and `generate_builtin_text`: keep appending a randomly
chosen word (space-separated once the text is non-empty).  `i` counts the
random draws made so far.  The Rust loop is unbounded; the fuel only bounds
the iteration count of the model, and `MIN_TEXT_LENGTH + 1` iterations are
proved sufficient whenever every selectable word is non-empty (the loop
grows the text every round).  Running out of fuel models divergence as
`none`. -/
def word_text_loop (words : List (List Char)) (rng : Nat → Nat) :
    Nat → List Char → Nat → Option (List Char)
  | _, _, 0 => none
  | i, text, fuel + 1 =>
    if MIN_TEXT_LENGTH ≤ text.length then some text
    else
      let word := words.getD (rng i % words.length) []
      let text := if text.isEmpty then text ++ word else text ++ [' '] ++ word
      word_text_loop words rng (i + 1) text fuel

/-- `App::generate_word_text`: `gen_range(0..0)` on an empty word list
panics (`none`); otherwise run the assembly loop. -/
def generate_word_text (words : List (List Char)) (rng : Nat → Nat) :
    Option (List Char) :=
  if words.isEmpty then none
  else word_text_loop words rng 0 [] (MIN_TEXT_LENGTH + 1)

/-- The eight built-in excerpts of `App::new` (apostrophes written as
`\x27`). -/
def sample_texts : List (List Char) :=
  [("The quick brown fox jumps over the lazy dog. This pangram contains every letter of the alphabet at least once.").toList,
   ("In a hole in the ground there lived a hobbit. Not a nasty, dirty, wet hole filled with the ends of worms and an oozy smell.").toList,
   ("To be or not to be, that is the question. Whether \x27tis nobler in the mind to suffer the slings and arrows of outrageous fortune.").toList,
   ("It was the best of times, it was the worst of times, it was the age of wisdom, it was the age of foolishness and doubt.").toList,
   ("All human beings are born free and equal in dignity and rights. They are endowed with reason and conscience.").toList,
   ("The only way to do great work is to love what you do. If you haven\x27t found it yet, keep looking and don\x27t settle.").toList,
   ("Two things are infinite: the universe and human stupidity; and I\x27m not sure about the universe and its vast mysteries.").toList,
   ("In the midst of winter, I found there was, within me, an invincible summer that could not be defeated by any force.").toList]

/-- `App::generate_builtin_text`: the same assembly loop over the eight
built-in excerpts (the list is never empty, so no panic is possible). -/
def generate_builtin_text (rng : Nat → Nat) : Option (List Char) :=
  word_text_loop sample_texts rng 0 [] (MIN_TEXT_LENGTH + 1)

/-- `str::trim` (Rust trims Unicode whitespace; `Char.isWhitespace` covers
the whitespace occurring in word-list lines, and any word whose trim the two
notions disagree on contains non-ASCII whitespace and is discarded by the
all-lowercase filter either way). -/
def trimChars (l : List Char) : List Char :=
  ((l.dropWhile Char.isWhitespace).reverse.dropWhile Char.isWhitespace).reverse

/-- `char::is_ascii_lowercase`. -/
def isAsciiLowercase (c : Char) : Bool :=
  'a' ≤ c && c ≤ 'z'

/-- `App::load_google10k_words`.  The embedded `data/google-10000.txt` asset
is not among the sources, so the raw content is a parameter.  Keeps the
trimmed lines whose length is in `[MIN_WORD_LENGTH, max_word_length]` and
that consist only of ASCII lowercase letters. -/
def load_google10k_words (content : List Char) (max_word_length : Nat) :
    List (List Char) :=
  ((content.splitOn '\n').map trimChars).filter (fun word =>
    decide (MIN_WORD_LENGTH ≤ word.length) && decide (word.length ≤ max_word_length)
      && word.all isAsciiLowercase)

/-- `App::load_system_dict_words` applied to the content of
`/usr/share/dict/words` (the same filter as the google list). -/
def load_system_dict_words (dict_content : List Char) (max_word_length : Nat) :
    List (List Char) :=
  ((dict_content.splitOn '\n').map trimChars).filter (fun word =>
    decide (MIN_WORD_LENGTH ≤ word.length) && decide (word.length ≤ max_word_length)
      && word.all isAsciiLowercase)

/-- `App::generate_google10k_text`: load, filter, assemble — with no
fallback on an empty filtered list. -/
def generate_google10k_text (content : List Char) (max_word_length : Nat)
    (rng : Nat → Nat) : Option (List Char) :=
  generate_word_text (load_google10k_words content max_word_length) rng

/-- `App::generate_system_dict_text`: `dict_content = none` models a failed
`fs::read_to_string(DICT_PATH)`; both the read failure and an empty filtered
list fall back to the built-in excerpts. -/
def generate_system_dict_text (dict_content : Option (List Char))
    (max_word_length : Nat) (rng : Nat → Nat) : Option (List Char) :=
  match dict_content with
  | some content =>
    let words := load_system_dict_words content max_word_length
    if words.isEmpty then generate_builtin_text rng
    else generate_word_text words rng
  | none => generate_builtin_text rng

/-! ## Basic lemmas about the embedded operations -/

/-- The error count recorded for expected character `c` (zero when the key
has no entry). -/
def App.keyErrors (a : App) (c : Char) : Nat :=
  ((alistGet a.key_metrics c).getD KeyMetrics.new).errors

/-- The latency samples recorded for expected character `c` (empty when the
key has no entry). -/
def App.keyTimes (a : App) (c : Char) : List Nat :=
  ((alistGet a.key_metrics c).getD KeyMetrics.new).times

@[simp] lemma App.start_timing_target_chars (a : App) (now : Nat) :
    (a.start_timing_current_key now).target_chars = a.target_chars := by
  unfold App.start_timing_current_key; split <;> rfl

@[simp] lemma App.start_timing_user_input (a : App) (now : Nat) :
    (a.start_timing_current_key now).user_input = a.user_input := by
  unfold App.start_timing_current_key; split <;> rfl

@[simp] lemma App.start_timing_current_position (a : App) (now : Nat) :
    (a.start_timing_current_key now).current_position = a.current_position := by
  unfold App.start_timing_current_key; split <;> rfl

@[simp] lemma App.start_timing_start_time (a : App) (now : Nat) :
    (a.start_timing_current_key now).start_time = a.start_time := by
  unfold App.start_timing_current_key; split <;> rfl

@[simp] lemma App.start_timing_wpm_data_points (a : App) (now : Nat) :
    (a.start_timing_current_key now).wpm_data_points = a.wpm_data_points := by
  unfold App.start_timing_current_key; split <;> rfl

@[simp] lemma App.start_timing_is_finished (a : App) (now : Nat) :
    (a.start_timing_current_key now).is_finished = a.is_finished := by
  unfold App.start_timing_current_key; split <;> rfl

@[simp] lemma App.start_timing_errors (a : App) (now : Nat) :
    (a.start_timing_current_key now).errors = a.errors := by
  unfold App.start_timing_current_key; split <;> rfl

@[simp] lemma App.start_timing_total_keystrokes (a : App) (now : Nat) :
    (a.start_timing_current_key now).total_keystrokes = a.total_keystrokes := by
  unfold App.start_timing_current_key; split <;> rfl

@[simp] lemma App.start_timing_last_wpm_update (a : App) (now : Nat) :
    (a.start_timing_current_key now).last_wpm_update = a.last_wpm_update := by
  unfold App.start_timing_current_key; split <;> rfl

@[simp] lemma App.start_timing_require_correction (a : App) (now : Nat) :
    (a.start_timing_current_key now).require_correction = a.require_correction := by
  unfold App.start_timing_current_key; split <;> rfl

@[simp] lemma App.start_timing_correction_attempts (a : App) (now : Nat) :
    (a.start_timing_current_key now).correction_attempts = a.correction_attempts := by
  unfold App.start_timing_current_key; split <;> rfl

@[simp] lemma App.start_timing_key_metrics (a : App) (now : Nat) :
    (a.start_timing_current_key now).key_metrics = a.key_metrics := by
  unfold App.start_timing_current_key; split <;> rfl

lemma App.start_timing_timer_of_lt (a : App) (now : Nat)
    (h : a.current_position < a.target_chars.length) :
    (a.start_timing_current_key now).current_key_start_time = some now := by
  unfold App.start_timing_current_key; rw [if_pos h]

lemma App.start_timing_timer_isSome (a : App) (now : Nat)
    (h : a.current_key_start_time.isSome) :
    (a.start_timing_current_key now).current_key_start_time.isSome := by
  unfold App.start_timing_current_key; split <;> simp [h]

@[simp] lemma App.update_wpm_target_chars (a : App) (now : Nat) :
    (a.update_wpm now).target_chars = a.target_chars := by
  unfold App.update_wpm
  split
  · rfl
  · dsimp only
    split <;> rfl

@[simp] lemma App.update_wpm_user_input (a : App) (now : Nat) :
    (a.update_wpm now).user_input = a.user_input := by
  unfold App.update_wpm
  split
  · rfl
  · dsimp only
    split <;> rfl

@[simp] lemma App.update_wpm_current_position (a : App) (now : Nat) :
    (a.update_wpm now).current_position = a.current_position := by
  unfold App.update_wpm
  split
  · rfl
  · dsimp only
    split <;> rfl

@[simp] lemma App.update_wpm_start_time (a : App) (now : Nat) :
    (a.update_wpm now).start_time = a.start_time := by
  unfold App.update_wpm
  split
  · rfl
  · dsimp only
    split <;> rfl

@[simp] lemma App.update_wpm_is_finished (a : App) (now : Nat) :
    (a.update_wpm now).is_finished = a.is_finished := by
  unfold App.update_wpm
  split
  · rfl
  · dsimp only
    split <;> rfl

@[simp] lemma App.update_wpm_errors (a : App) (now : Nat) :
    (a.update_wpm now).errors = a.errors := by
  unfold App.update_wpm
  split
  · rfl
  · dsimp only
    split <;> rfl

@[simp] lemma App.update_wpm_total_keystrokes (a : App) (now : Nat) :
    (a.update_wpm now).total_keystrokes = a.total_keystrokes := by
  unfold App.update_wpm
  split
  · rfl
  · dsimp only
    split <;> rfl

@[simp] lemma App.update_wpm_require_correction (a : App) (now : Nat) :
    (a.update_wpm now).require_correction = a.require_correction := by
  unfold App.update_wpm
  split
  · rfl
  · dsimp only
    split <;> rfl

@[simp] lemma App.update_wpm_correction_attempts (a : App) (now : Nat) :
    (a.update_wpm now).correction_attempts = a.correction_attempts := by
  unfold App.update_wpm
  split
  · rfl
  · dsimp only
    split <;> rfl

@[simp] lemma App.update_wpm_key_metrics (a : App) (now : Nat) :
    (a.update_wpm now).key_metrics = a.key_metrics := by
  unfold App.update_wpm
  split
  · rfl
  · dsimp only
    split <;> rfl

@[simp] lemma App.update_wpm_current_key_start_time (a : App) (now : Nat) :
    (a.update_wpm now).current_key_start_time = a.current_key_start_time := by
  unfold App.update_wpm
  split
  · rfl
  · dsimp only
    split <;> rfl

lemma alistGet_entryModify_self (m : List (Char × KeyMetrics)) (c : Char)
    (f : KeyMetrics → KeyMetrics) :
    alistGet (entryModify m c f) c = some (f ((alistGet m c).getD KeyMetrics.new)) := by
  induction m with
  | nil => simp [entryModify, alistGet]
  | cons p rest ih =>
    by_cases h : p.1 = c
    · simp [entryModify, alistGet, h]
    · simp [entryModify, alistGet, h, ih]

lemma alistGet_entryModify_ne (m : List (Char × KeyMetrics)) (c d : Char)
    (f : KeyMetrics → KeyMetrics) (h : d ≠ c) :
    alistGet (entryModify m c f) d = alistGet m d := by
  have h' : ¬ c = d := fun hh => h hh.symm
  induction m with
  | nil => simp [entryModify, alistGet, h']
  | cons p rest ih =>
    by_cases hp : p.1 = c
    · simp [entryModify, alistGet, hp, h']
    · by_cases hd : p.1 = d
      · simp [entryModify, alistGet, hp, hd, h]
      · simp [entryModify, alistGet, hp, hd, ih]

lemma entryModify_entryModify (m : List (Char × KeyMetrics)) (c : Char)
    (f g : KeyMetrics → KeyMetrics) :
    entryModify (entryModify m c f) c g = entryModify m c (fun k => g (f k)) := by
  induction m with
  | nil => simp [entryModify]
  | cons p rest ih =>
    by_cases h : p.1 = c
    · simp [entryModify, h]
    · simp [entryModify, h, ih]

lemma entryModify_forall (P : KeyMetrics → Prop) (m : List (Char × KeyMetrics))
    (c : Char) (f : KeyMetrics → KeyMetrics)
    (hm : ∀ p ∈ m, P p.2) (hf : ∀ k, P k → P (f k)) (hnew : P (f KeyMetrics.new)) :
    ∀ p ∈ entryModify m c f, P p.2 := by
  induction m with
  | nil => intro p hp; simp [entryModify] at hp; rw [hp]; exact hnew
  | cons q rest ih =>
    intro p hp
    by_cases h : q.1 = c
    · simp only [entryModify, if_pos h, List.mem_cons] at hp
      rcases hp with rfl | hp
      · exact hf _ (hm q (List.mem_cons_self q rest))
      · exact hm p (List.mem_cons_of_mem q hp)
    · simp only [entryModify, if_neg h, List.mem_cons] at hp
      rcases hp with rfl | hp
      · exact hm p (List.mem_cons_self p rest)
      · exact ih (fun r hr => hm r (List.mem_cons_of_mem q hr)) p hp

/-! ## The reachable-state invariant -/

lemma nat_cast_le_div_pow9 (k x : Nat) :
    (k : ℚ) ≤ (x : ℚ) / 10 ^ 9 ↔ k * 10 ^ 9 ≤ x := by
  rw [le_div_iff₀ (by norm_num : (0:ℚ) < 10 ^ 9)]
  exact_mod_cast Iff.rfl

lemma div_pow9_succ_le {a b : Nat} (h : a + 10 ^ 9 ≤ b) :
    ((a : ℚ)) / 10 ^ 9 + 1 ≤ ((b : ℚ)) / 10 ^ 9 := by
  have h9 : (0:ℚ) < 10 ^ 9 := by norm_num
  have hab : ((a : ℚ) + 10 ^ 9) ≤ (b : ℚ) := by exact_mod_cast h
  have hdiv := (div_le_div_iff_of_pos_right h9).mpr hab
  rw [add_div, div_self (ne_of_gt h9)] at hdiv
  exact hdiv

lemma key_err_le_recordTime {m : List (Char × KeyMetrics)} {c : Char} {t : Nat}
    (hm : ∀ p ∈ m, p.2.errors ≤ p.2.times.length) :
    ∀ p ∈ recordTime m c t, p.2.errors ≤ p.2.times.length := by
  unfold recordTime
  refine entryModify_forall (fun k => k.errors ≤ k.times.length) m c _ hm (fun k hk => ?_) ?_
  · simpa using Nat.le_succ_of_le hk
  · simp [KeyMetrics.new]

lemma key_err_le_record_both {m : List (Char × KeyMetrics)} {c : Char} {t : Nat}
    (hm : ∀ p ∈ m, p.2.errors ≤ p.2.times.length) :
    ∀ p ∈ recordError (recordTime m c t) c, p.2.errors ≤ p.2.times.length := by
  unfold recordError recordTime
  rw [entryModify_entryModify]
  refine entryModify_forall (fun k => k.errors ≤ k.times.length) m c _ hm (fun k hk => ?_) ?_
  · simpa using Nat.succ_le_succ hk
  · simp [KeyMetrics.new]

/-- The state invariant maintained by every session reachable from
`App.new _ target rc _` by keystroke events: the target and mode are fixed,
the cursor stays in bounds, the correction marks keep the target's length,
errors never exceed keystrokes (globally and per key), the per-key timer is
armed whenever the cursor is on a real position, and the WPM samples are
≥ 2 s, spaced ≥ 1 s, with values in `[0, 500]`. -/
structure SessionInv (target : List Char) (rc : Bool) (a : App) : Prop where
  target_eq : a.target_chars = target
  rc_eq : a.require_correction = rc
  pos_le : a.current_position ≤ target.length
  marks_len : a.correction_attempts.length = target.length
  err_le : a.errors ≤ a.total_keystrokes
  key_err_le : ∀ p ∈ a.key_metrics, p.2.errors ≤ p.2.times.length
  timer_some : a.current_position < target.length → a.current_key_start_time.isSome
  wpm_mem : ∀ p ∈ a.wpm_data_points, 2 ≤ p.1 ∧ 0 ≤ p.2 ∧ p.2 ≤ 500
  wpm_chain : List.Chain' (fun p q : ℚ × ℚ => p.1 + 1 ≤ q.1) a.wpm_data_points
  wpm_link :
    match a.last_wpm_update, a.start_time with
    | some t, some s =>
        s ≤ t ∧ ∃ w : ℚ,
          a.wpm_data_points.getLast? = some (((t - s : Nat) : ℚ) / 10 ^ 9, w)
    | some _, none => False
    | none, _ => a.wpm_data_points = []

lemma SessionInv.new (t0 : Nat) (target : List Char) (rc : Bool) (d : Nat) :
    SessionInv target rc (App.new t0 target rc d) := by
  unfold App.new
  dsimp only
  refine ⟨by simp, by simp, by simp, by simp, by simp, by simp, ?_, by simp, by simp, by simp⟩
  intro hlt
  rw [App.start_timing_timer_of_lt _ t0 (by simpa using hlt)]
  rfl

lemma SessionInv.update_wpm {target : List Char} {rc : Bool} {a : App}
    (h : SessionInv target rc a) (now : Nat) : SessionInv target rc (a.update_wpm now) := by
  unfold App.update_wpm
  cases hs : a.start_time with
  | none => exact h
  | some s =>
    dsimp only
    cases hl : a.last_wpm_update with
    | none =>
      dsimp only
      split
      case isTrue hcond =>
        have he : (2 : ℚ) ≤ ((now - s : Nat) : ℚ) / 10 ^ 9 := hcond.2
        have hpts : a.wpm_data_points = [] := by
          have hw := h.wpm_link; rw [hl] at hw; exact hw
        have hsn : s ≤ now := by
          have := (nat_cast_le_div_pow9 2 (now - s)).mp he
          omega
        refine ⟨h.target_eq, h.rc_eq, h.pos_le, h.marks_len, h.err_le, h.key_err_le,
          h.timer_some, ?_, ?_, ?_⟩
        · intro p hp
          rw [hpts] at hp
          simp only [List.nil_append, List.mem_singleton] at hp
          subst hp
          refine ⟨he, le_min (by positivity) (by norm_num), min_le_right _ _⟩
        · rw [hpts]
          simp
        · refine ⟨hsn,
            ⟨min ((a.current_position : ℚ) / 5 / (((now - s : Nat) : ℚ) / 10 ^ 9 / 60)) 500, ?_⟩⟩
          rw [hpts]
          simp
      case isFalse => exact h
    | some t =>
      dsimp only
      split
      case isTrue hcond =>
        have hgap : (1 : ℚ) ≤ ((now - t : Nat) : ℚ) / 10 ^ 9 :=
          of_decide_eq_true hcond.1
        have he : (2 : ℚ) ≤ ((now - s : Nat) : ℚ) / 10 ^ 9 := hcond.2
        have hlink := h.wpm_link; rw [hl, hs] at hlink
        obtain ⟨hst, w', hw'⟩ := hlink
        have hgap' : 10 ^ 9 ≤ now - t := by
          have := (nat_cast_le_div_pow9 1 (now - t)).mp hgap
          omega
        have htn : t + 10 ^ 9 ≤ now := by omega
        refine ⟨h.target_eq, h.rc_eq, h.pos_le, h.marks_len, h.err_le, h.key_err_le,
          h.timer_some, ?_, ?_, ?_⟩
        · intro p hp
          rcases List.mem_append.mp hp with hp | hp
          · exact h.wpm_mem p hp
          · simp only [List.mem_singleton] at hp
            subst hp
            refine ⟨he, le_min (by positivity) (by norm_num), min_le_right _ _⟩
        · refine List.chain'_append.mpr ⟨h.wpm_chain, List.chain'_singleton _, ?_⟩
          intro x hx y hy
          rw [hw'] at hx
          simp only [Option.mem_def, Option.some_inj] at hx
          simp only [List.head?_cons, Option.mem_def, Option.some_inj] at hy
          subst hx; subst hy
          exact div_pow9_succ_le (by omega)
        · refine ⟨by omega,
            ⟨min ((a.current_position : ℚ) / 5 / (((now - s : Nat) : ℚ) / 10 ^ 9 / 60)) 500, ?_⟩⟩
          rw [List.getLast?_concat]
      case isFalse => exact h

lemma SessionInv.on_first {target : List Char} {rc : Bool} {a : App}
    (h : SessionInv target rc a) (now : Nat) : SessionInv target rc (a.on_first_keystroke now) := by
  unfold App.on_first_keystroke
  split
  case isTrue hnone =>
    have hnone' : a.start_time = none := Option.isNone_iff_eq_none.mp hnone
    have hlast : a.last_wpm_update = none := by
      cases hl : a.last_wpm_update with
      | none => rfl
      | some t =>
        have hw := h.wpm_link; rw [hl, hnone'] at hw; exact absurd hw (by simp)
    have hpts : a.wpm_data_points = [] := by
      have hw := h.wpm_link; rw [hlast] at hw; exact hw
    refine ⟨by simpa using h.target_eq, by simpa using h.rc_eq, by simpa using h.pos_le,
      by simpa using h.marks_len, by simpa using h.err_le, by simpa using h.key_err_le,
      ?_, by simpa using h.wpm_mem, by simpa using h.wpm_chain, ?_⟩
    · intro hlt
      rw [App.start_timing_timer_of_lt _ now (by simpa [h.target_eq] using hlt)]
      rfl
    · simp only [App.start_timing_last_wpm_update, App.start_timing_start_time,
        App.start_timing_wpm_data_points]
      rw [hlast]
      simpa using hpts
  case isFalse => exact h

lemma SessionInv.push_input {target : List Char} {rc : Bool} {b : App}
    (hb : SessionInv target rc b) (c : Char) :
    SessionInv target rc
      ({ b with user_input := b.user_input ++ [c],
                total_keystrokes := b.total_keystrokes + 1 }) :=
  ⟨hb.target_eq, hb.rc_eq, hb.pos_le, hb.marks_len, Nat.le_succ_of_le hb.err_le,
    hb.key_err_le, hb.timer_some, hb.wpm_mem, hb.wpm_chain, hb.wpm_link⟩

lemma SessionInv.advance_pos {target : List Char} {rc : Bool} {b : App}
    (hb : SessionInv target rc b) (now : Nat)
    (hpos : b.current_position < target.length) :
    SessionInv target rc
      (({ b with current_position := b.current_position + 1
         }).start_timing_current_key now) := by
  refine ⟨by simpa using hb.target_eq, by simpa using hb.rc_eq, by simpa using hpos,
    by simpa using hb.marks_len, by simpa using hb.err_le, by simpa using hb.key_err_le,
    ?_, by simpa using hb.wpm_mem, by simpa using hb.wpm_chain, ?_⟩
  · intro hlt
    rw [App.start_timing_timer_of_lt _ now (by simpa [hb.target_eq] using hlt)]
    rfl
  · simp only [App.start_timing_last_wpm_update, App.start_timing_start_time,
      App.start_timing_wpm_data_points]
    exact hb.wpm_link

lemma SessionInv.set_mark {target : List Char} {rc : Bool} {b : App}
    (hb : SessionInv target rc b) :
    SessionInv target rc
      (if b.current_position < b.correction_attempts.length then
        { b with correction_attempts :=
            b.correction_attempts.set b.current_position true }
      else b) := by
  split
  · exact ⟨hb.target_eq, hb.rc_eq, hb.pos_le, by simpa using hb.marks_len, hb.err_le,
      hb.key_err_le, hb.timer_some, hb.wpm_mem, hb.wpm_chain, hb.wpm_link⟩
  · exact hb

lemma SessionInv.finish_wrap {target : List Char} {rc : Bool} {b : App}
    (hb : SessionInv target rc b) (now : Nat) :
    SessionInv target rc
      (let b' : App := { b with last_keystroke_time := some now }
       if b'.target_chars.length ≤ b'.current_position then
         { b' with is_finished := true }
       else b') := by
  dsimp only
  split
  · exact ⟨hb.target_eq, hb.rc_eq, hb.pos_le, hb.marks_len, hb.err_le,
      hb.key_err_le, hb.timer_some, hb.wpm_mem, hb.wpm_chain, hb.wpm_link⟩
  · exact ⟨hb.target_eq, hb.rc_eq, hb.pos_le, hb.marks_len, hb.err_le,
      hb.key_err_le, hb.timer_some, hb.wpm_mem, hb.wpm_chain, hb.wpm_link⟩

lemma SessionInv.set_last_keystroke {target : List Char} {rc : Bool} {b : App}
    (hb : SessionInv target rc b) (now : Nat) :
    SessionInv target rc ({ b with last_keystroke_time := some now }) :=
  ⟨hb.target_eq, hb.rc_eq, hb.pos_le, hb.marks_len, hb.err_le,
    hb.key_err_le, hb.timer_some, hb.wpm_mem, hb.wpm_chain, hb.wpm_link⟩

lemma SessionInv.pop_input {target : List Char} {rc : Bool} {b : App}
    (hb : SessionInv target rc b) :
    SessionInv target rc
      ({ b with user_input := b.user_input.dropLast,
                total_keystrokes := b.total_keystrokes + 1 }) :=
  ⟨hb.target_eq, hb.rc_eq, hb.pos_le, hb.marks_len, Nat.le_succ_of_le hb.err_le,
    hb.key_err_le, hb.timer_some, hb.wpm_mem, hb.wpm_chain, hb.wpm_link⟩

lemma SessionInv.retreat_pos {target : List Char} {rc : Bool} {b : App}
    (hb : SessionInv target rc b) (now : Nat) :
    SessionInv target rc
      (({ b with current_position := b.current_position - 1
         }).start_timing_current_key now) := by
  refine ⟨by simpa using hb.target_eq, by simpa using hb.rc_eq,
    by simpa using Nat.le_trans (Nat.sub_le _ _) hb.pos_le,
    by simpa using hb.marks_len, by simpa using hb.err_le, by simpa using hb.key_err_le,
    ?_, by simpa using hb.wpm_mem, by simpa using hb.wpm_chain, ?_⟩
  · intro hlt
    rw [App.start_timing_timer_of_lt _ now (by simpa [hb.target_eq] using hlt)]
    rfl
  · simp only [App.start_timing_last_wpm_update, App.start_timing_start_time,
      App.start_timing_wpm_data_points]
    exact hb.wpm_link

lemma SessionInv.on_char {target : List Char} {rc : Bool} {a : App}
    (h : SessionInv target rc a) (now : Nat) (c : Char) :
    SessionInv target rc (a.on_char now c) := by
  unfold App.on_char
  split
  case isFalse => exact h
  case isTrue hpos =>
    have hpos' : a.current_position < target.length := h.target_eq ▸ hpos
    obtain ⟨ks, hks⟩ := Option.isSome_iff_exists.mp (h.timer_some hpos')
    dsimp only
    rw [hks]
    dsimp only
    have ham : SessionInv target rc
        ({ a with current_key_start_time := some ks,
                  key_metrics :=
                    (recordTime a.key_metrics
                      (a.target_chars.getD a.current_position ' ') (now - ks)) }) :=
      ⟨h.target_eq, h.rc_eq, h.pos_le, h.marks_len, h.err_le,
        key_err_le_recordTime h.key_err_le, fun _ => rfl, h.wpm_mem, h.wpm_chain,
        h.wpm_link⟩
    refine SessionInv.finish_wrap ?_ now
    split
    case isTrue hrc =>
      split
      case isTrue hc =>
        exact SessionInv.update_wpm
          (SessionInv.advance_pos (SessionInv.push_input ham c) now hpos') now
      case isFalse hc =>
        have haw : SessionInv target rc
            ({ a with current_key_start_time := some ks,
                      errors := a.errors + 1,
                      total_keystrokes := a.total_keystrokes + 1,
                      key_metrics :=
                        (recordError
                          (recordTime a.key_metrics
                            (a.target_chars.getD a.current_position ' ') (now - ks))
                          (a.target_chars.getD a.current_position ' ')) }) :=
          ⟨h.target_eq, h.rc_eq, h.pos_le, h.marks_len, Nat.succ_le_succ h.err_le,
            key_err_le_record_both h.key_err_le, fun _ => rfl, h.wpm_mem,
            h.wpm_chain, h.wpm_link⟩
        exact SessionInv.set_mark haw
    case isFalse hrc =>
      split
      case isTrue hc =>
        exact SessionInv.update_wpm
          (SessionInv.advance_pos (SessionInv.push_input ham c) now hpos') now
      case isFalse hc =>
        have ha2 : SessionInv target rc
            ({ a with current_key_start_time := some ks,
                      user_input := a.user_input ++ [c],
                      total_keystrokes := a.total_keystrokes + 1,
                      errors := a.errors + 1,
                      key_metrics :=
                        (recordError
                          (recordTime a.key_metrics
                            (a.target_chars.getD a.current_position ' ') (now - ks))
                          (a.target_chars.getD a.current_position ' ')) }) :=
          ⟨h.target_eq, h.rc_eq, h.pos_le, h.marks_len, Nat.succ_le_succ h.err_le,
            key_err_le_record_both h.key_err_le, fun _ => rfl, h.wpm_mem,
            h.wpm_chain, h.wpm_link⟩
        exact SessionInv.advance_pos (SessionInv.set_mark ha2) now
          (by split <;> exact hpos')

lemma SessionInv.on_backspace {target : List Char} {rc : Bool} {a : App}
    (h : SessionInv target rc a) (now : Nat) :
    SessionInv target rc (a.on_backspace now) := by
  unfold App.on_backspace
  dsimp only
  refine SessionInv.set_last_keystroke ?_ now
  split
  case isTrue => exact h
  case isFalse =>
    split
    case isTrue hpos0 => exact SessionInv.retreat_pos (SessionInv.pop_input h) now
    case isFalse => exact SessionInv.pop_input h

lemma SessionInv.step {target : List Char} {rc : Bool} {a : App}
    (h : SessionInv target rc a) (now : Nat) (key : KeyCode) :
    SessionInv target rc (a.handle_key_event now key) := by
  unfold App.handle_key_event
  split
  · exact h
  · dsimp only
    cases key with
    | char c => exact (h.on_first now).on_char now c
    | backspace => exact (h.on_first now).on_backspace now
    | other => exact h.on_first now

lemma SessionInv.apply_events {target : List Char} {rc : Bool} :
    ∀ (evs : List Event) (b : App), SessionInv target rc b →
      SessionInv target rc (b.applyEvents evs)
  | [], _, hb => hb
  | e :: rest, _, hb => SessionInv.apply_events rest _ (hb.step e.1 e.2)

/-- Every state reachable from a fresh session by keystroke events
satisfies the invariant. -/
lemma SessionInv.run (t0 : Nat) (target : List Char) (rc : Bool) (d : Nat)
    (evs : List Event) :
    SessionInv target rc ((App.new t0 target rc d).applyEvents evs) :=
  SessionInv.apply_events evs _ (SessionInv.new t0 target rc d)

/-! ## Characterizing single keystroke steps -/

@[simp] lemma App.on_first_target_chars (a : App) (now : Nat) :
    (a.on_first_keystroke now).target_chars = a.target_chars := by
  unfold App.on_first_keystroke; split <;> simp

@[simp] lemma App.on_first_user_input (a : App) (now : Nat) :
    (a.on_first_keystroke now).user_input = a.user_input := by
  unfold App.on_first_keystroke; split <;> simp

@[simp] lemma App.on_first_current_position (a : App) (now : Nat) :
    (a.on_first_keystroke now).current_position = a.current_position := by
  unfold App.on_first_keystroke; split <;> simp

@[simp] lemma App.on_first_wpm_data_points (a : App) (now : Nat) :
    (a.on_first_keystroke now).wpm_data_points = a.wpm_data_points := by
  unfold App.on_first_keystroke; split <;> simp

@[simp] lemma App.on_first_is_finished (a : App) (now : Nat) :
    (a.on_first_keystroke now).is_finished = a.is_finished := by
  unfold App.on_first_keystroke; split <;> simp

@[simp] lemma App.on_first_errors (a : App) (now : Nat) :
    (a.on_first_keystroke now).errors = a.errors := by
  unfold App.on_first_keystroke; split <;> simp

@[simp] lemma App.on_first_total_keystrokes (a : App) (now : Nat) :
    (a.on_first_keystroke now).total_keystrokes = a.total_keystrokes := by
  unfold App.on_first_keystroke; split <;> simp

@[simp] lemma App.on_first_last_wpm_update (a : App) (now : Nat) :
    (a.on_first_keystroke now).last_wpm_update = a.last_wpm_update := by
  unfold App.on_first_keystroke; split <;> simp

@[simp] lemma App.on_first_require_correction (a : App) (now : Nat) :
    (a.on_first_keystroke now).require_correction = a.require_correction := by
  unfold App.on_first_keystroke; split <;> simp

@[simp] lemma App.on_first_correction_attempts (a : App) (now : Nat) :
    (a.on_first_keystroke now).correction_attempts = a.correction_attempts := by
  unfold App.on_first_keystroke; split <;> simp

@[simp] lemma App.on_first_key_metrics (a : App) (now : Nat) :
    (a.on_first_keystroke now).key_metrics = a.key_metrics := by
  unfold App.on_first_keystroke; split <;> simp

@[simp] lemma App.on_backspace_errors (a : App) (now : Nat) :
    (a.on_backspace now).errors = a.errors := by
  unfold App.on_backspace; dsimp only; split
  · rfl
  · split <;> simp

@[simp] lemma App.on_backspace_correction_attempts (a : App) (now : Nat) :
    (a.on_backspace now).correction_attempts = a.correction_attempts := by
  unfold App.on_backspace; dsimp only; split
  · rfl
  · split <;> simp

@[simp] lemma App.on_backspace_key_metrics (a : App) (now : Nat) :
    (a.on_backspace now).key_metrics = a.key_metrics := by
  unfold App.on_backspace; dsimp only; split
  · rfl
  · split <;> simp

@[simp] lemma App.on_backspace_wpm_data_points (a : App) (now : Nat) :
    (a.on_backspace now).wpm_data_points = a.wpm_data_points := by
  unfold App.on_backspace; dsimp only; split
  · rfl
  · split <;> simp

lemma keyErrors_record_both (m : List (Char × KeyMetrics)) (c : Char) (t : Nat) :
    ((alistGet (recordError (recordTime m c t) c) c).getD KeyMetrics.new).errors =
      ((alistGet m c).getD KeyMetrics.new).errors + 1 := by
  unfold recordError recordTime
  rw [entryModify_entryModify, alistGet_entryModify_self]
  rfl

lemma alistGet_mem {m : List (Char × KeyMetrics)} {c : Char} {v : KeyMetrics}
    (h : alistGet m c = some v) : (c, v) ∈ m := by
  induction m with
  | nil => simp [alistGet] at h
  | cons p rest ih =>
    unfold alistGet at h
    split at h
    case isTrue hp =>
      injection h with h
      subst h
      rw [← hp]
      exact List.mem_cons_self _ _
    case isFalse hp => exact List.mem_cons_of_mem _ (ih h)

/-- Correct keystroke at a valid cursor position (either mode): the cursor
advances by one. -/
lemma App.on_char_hit {target : List Char} {rc : Bool} {b : App}
    (hb : SessionInv target rc b) (now : Nat) {c : Char}
    (hpos : b.current_position < target.length)
    (hc : c = target.getD b.current_position ' ') :
    (b.on_char now c).current_position = b.current_position + 1 := by
  have hc' : c = b.target_chars.getD b.current_position ' ' := by
    rw [hb.target_eq]; exact hc
  unfold App.on_char
  rw [if_pos (hb.target_eq ▸ hpos)]
  obtain ⟨ks, hks⟩ := Option.isSome_iff_exists.mp (hb.timer_some hpos)
  dsimp only
  rw [hks]
  dsimp only
  rw [if_pos hc']
  by_cases hrc : b.require_correction = true
  · rw [if_pos hrc]
    split <;> simp
  · rw [if_neg hrc, if_pos hc']
    split <;> simp

/-- Mismatched keystroke at a valid cursor position in correction mode: the
cursor does not move, the global and per-key error counts grow by one, the
keystroke count grows by one, and the correction mark at the cursor is
set. -/
lemma App.on_char_miss_correction {target : List Char} {b : App}
    (hb : SessionInv target true b) (now : Nat) {c : Char}
    (hpos : b.current_position < target.length)
    (hc : ¬ c = target.getD b.current_position ' ') :
    (b.on_char now c).current_position = b.current_position ∧
    (b.on_char now c).errors = b.errors + 1 ∧
    (b.on_char now c).total_keystrokes = b.total_keystrokes + 1 ∧
    (b.on_char now c).keyErrors (target.getD b.current_position ' ') =
      b.keyErrors (target.getD b.current_position ' ') + 1 ∧
    (b.on_char now c).correction_attempts.getD b.current_position false = true := by
  have hc' : ¬ c = b.target_chars.getD b.current_position ' ' := by
    rw [hb.target_eq]; exact hc
  have hmarks : b.current_position < b.correction_attempts.length := by
    rw [hb.marks_len]; exact hpos
  unfold App.on_char
  rw [if_pos (hb.target_eq ▸ hpos)]
  obtain ⟨ks, hks⟩ := Option.isSome_iff_exists.mp (hb.timer_some hpos)
  dsimp only
  rw [hks]
  dsimp only
  rw [if_pos hb.rc_eq, if_neg hc']
  rw [if_pos hmarks]
  unfold App.keyErrors
  rw [hb.target_eq]
  refine ⟨?_, ?_, ?_, ?_, ?_⟩ <;> (split <;>
    simp [keyErrors_record_both, List.getElem?_set_self hmarks])

/-- Mismatched keystroke at a valid cursor position in normal mode: the
cursor still advances by one, the global and per-key error counts grow by
one, the keystroke count grows by one, and the correction mark at the (old)
cursor is set. -/
lemma App.on_char_miss_normal {target : List Char} {b : App}
    (hb : SessionInv target false b) (now : Nat) {c : Char}
    (hpos : b.current_position < target.length)
    (hc : ¬ c = target.getD b.current_position ' ') :
    (b.on_char now c).current_position = b.current_position + 1 ∧
    (b.on_char now c).errors = b.errors + 1 ∧
    (b.on_char now c).total_keystrokes = b.total_keystrokes + 1 ∧
    (b.on_char now c).keyErrors (target.getD b.current_position ' ') =
      b.keyErrors (target.getD b.current_position ' ') + 1 ∧
    (b.on_char now c).correction_attempts.getD b.current_position false = true := by
  have hc' : ¬ c = b.target_chars.getD b.current_position ' ' := by
    rw [hb.target_eq]; exact hc
  have hrc : ¬ b.require_correction = true := by
    rw [hb.rc_eq]; simp
  have hmarks : b.current_position < b.correction_attempts.length := by
    rw [hb.marks_len]; exact hpos
  unfold App.on_char
  rw [if_pos (hb.target_eq ▸ hpos)]
  obtain ⟨ks, hks⟩ := Option.isSome_iff_exists.mp (hb.timer_some hpos)
  dsimp only
  rw [hks]
  dsimp only
  rw [if_neg hrc, if_neg hc']
  rw [if_pos hmarks]
  unfold App.keyErrors
  rw [hb.target_eq]
  refine ⟨?_, ?_, ?_, ?_, ?_⟩ <;> (split <;>
    simp [keyErrors_record_both, List.getElem?_set_self hmarks])

/-- The backspace arm with a non-empty echo: the last echo character is
removed, the keystroke count grows by one, and the cursor retreats by one
when it is positive. -/
lemma App.on_backspace_nonempty {b : App} (now : Nat)
    (hne : ¬ b.user_input.isEmpty) :
    (b.on_backspace now).user_input = b.user_input.dropLast ∧
    (b.on_backspace now).total_keystrokes = b.total_keystrokes + 1 ∧
    (0 < b.current_position →
      (b.on_backspace now).current_position = b.current_position - 1) ∧
    (b.current_position = 0 →
      (b.on_backspace now).current_position = 0) := by
  unfold App.on_backspace
  dsimp only
  rw [if_neg hne]
  refine ⟨?_, ?_, ?_, ?_⟩
  · split <;> simp
  · split <;> simp
  · intro h0
    rw [if_pos h0]
    simp
  · intro h0
    rw [if_neg (by omega)]
    simpa using h0

lemma App.handle_char_eq {a : App} (hfin : a.is_finished = false)
    (now : Nat) (c : Char) :
    a.handle_key_event now (KeyCode.char c) =
      (a.on_first_keystroke now).on_char now c := by
  unfold App.handle_key_event
  rw [if_neg (by simp [hfin])]

lemma App.handle_backspace_eq {a : App} (hfin : a.is_finished = false)
    (now : Nat) :
    a.handle_key_event now KeyCode.backspace =
      (a.on_first_keystroke now).on_backspace now := by
  unfold App.handle_key_event
  rw [if_neg (by simp [hfin])]

@[simp] lemma App.on_first_keyErrors (a : App) (now : Nat) (c : Char) :
    (a.on_first_keystroke now).keyErrors c = a.keyErrors c := by
  unfold App.keyErrors
  rw [App.on_first_key_metrics]

/-! ## The claims -/

/-- C3. For every sequence of keystroke events (printable characters,
backspaces and ignored keys, in either mode, starting from a freshly
constructed session), the cursor satisfies `0 ≤ cursor ≤ len(TargetText)`
after every `applyKeystroke` call (the lower bound is inherent in the `Nat`
cursor; every prefix of an event list is itself an event list, so this
states the bound after every call). -/
theorem cursor_within_target_bounds (t0 d : Nat) (target : List Char)
    (rc : Bool) (evs : List Event) :
    ((App.new t0 target rc d).applyEvents evs).current_position ≤ target.length :=
  (SessionInv.run t0 target rc d evs).pos_le

/-- C4. After every keystroke sequence, `totalErrors ≤ totalKeystrokes`,
and `get_accuracy` returns exactly 100 when `totalKeystrokes = 0` and
otherwise `(totalKeystrokes − totalErrors)/totalKeystrokes × 100`, a value
always in `[0, 100]`. -/
theorem accuracy_formula_and_bounds (t0 d : Nat) (target : List Char)
    (rc : Bool) (evs : List Event) :
    let a := (App.new t0 target rc d).applyEvents evs
    a.errors ≤ a.total_keystrokes ∧
    (a.total_keystrokes = 0 → a.get_accuracy = 100) ∧
    (a.total_keystrokes ≠ 0 →
      a.get_accuracy =
        ((a.total_keystrokes : ℚ) - (a.errors : ℚ)) / (a.total_keystrokes : ℚ) * 100) ∧
    0 ≤ a.get_accuracy ∧ a.get_accuracy ≤ 100 := by
  have hInv := SessionInv.run t0 target rc d evs
  dsimp only
  revert hInv
  generalize (App.new t0 target rc d).applyEvents evs = a
  intro hInv
  have he := hInv.err_le
  refine ⟨he, fun h0 => ?_, fun hn => ?_, ?_, ?_⟩
  · unfold App.get_accuracy
    rw [if_pos h0]
  · unfold App.get_accuracy
    rw [if_neg hn]
    dsimp only
    rw [Nat.cast_sub he]
  · unfold App.get_accuracy
    split
    · norm_num
    · positivity
  · unfold App.get_accuracy
    split
    case isTrue => norm_num
    case isFalse hn =>
      dsimp only
      have hpos : (0 : ℚ) < (a.total_keystrokes : ℚ) := by
        exact_mod_cast Nat.pos_of_ne_zero hn
      have hle : ((a.total_keystrokes - a.errors : Nat) : ℚ) / (a.total_keystrokes : ℚ) ≤ 1 := by
        rw [div_le_one hpos]
        exact_mod_cast Nat.sub_le _ _
      nlinarith

unseal Rat.mul Rat.inv Rat.add Rat.sub in
/-- Witness for `accuracy_formula_and_bounds` at a concrete run: one correct
keystroke on target `"a"` gives accuracy `(1 − 0)/1 × 100`. -/
theorem accuracy_formula_and_bounds_witness :
    ((App.new 0 ['a'] false 30).applyEvents [(0, KeyCode.char 'a')]).get_accuracy =
      ((((App.new 0 ['a'] false 30).applyEvents
          [(0, KeyCode.char 'a')]).total_keystrokes : ℚ) -
        ((((App.new 0 ['a'] false 30).applyEvents
          [(0, KeyCode.char 'a')]).errors : ℚ))) /
        (((App.new 0 ['a'] false 30).applyEvents
          [(0, KeyCode.char 'a')]).total_keystrokes : ℚ) * 100 :=
  (accuracy_formula_and_bounds 0 30 ['a'] false [(0, KeyCode.char 'a')]).2.2.1
    (by decide)

/-- C5. After every keystroke sequence: no WPM sample has an elapsed-time
stamp below 2.0 seconds, sample timestamps are strictly increasing with
consecutive samples at least 1.0 seconds apart, and every sample value lies
in `[0, 500]`. -/
theorem wpm_sample_invariants (t0 d : Nat) (target : List Char)
    (rc : Bool) (evs : List Event) :
    (∀ p ∈ ((App.new t0 target rc d).applyEvents evs).wpm_data_points,
      2 ≤ p.1 ∧ 0 ≤ p.2 ∧ p.2 ≤ 500) ∧
    List.Chain' (fun p q : ℚ × ℚ => p.1 < q.1 ∧ p.1 + 1 ≤ q.1)
      ((App.new t0 target rc d).applyEvents evs).wpm_data_points := by
  have hInv := SessionInv.run t0 target rc d evs
  exact ⟨hInv.wpm_mem,
    List.Chain'.imp (fun p q h => ⟨lt_of_lt_of_le (lt_add_one _) h, h⟩) hInv.wpm_chain⟩

unseal Rat.mul Rat.inv Rat.add Rat.sub in
/-- Witness for `wpm_sample_invariants`: the sample `(3, 8)` emitted in a
concrete normal-mode run satisfies the bounds. -/
theorem wpm_sample_invariants_witness :
    2 ≤ ((3 : ℚ), (8 : ℚ)).1 ∧ 0 ≤ ((3 : ℚ), (8 : ℚ)).2 ∧
      ((3 : ℚ), (8 : ℚ)).2 ≤ 500 :=
  (wpm_sample_invariants 0 30 ['a', 'b'] false
      [(0, KeyCode.char 'x'), (3000000000, KeyCode.char 'b')]).1
    ((3 : ℚ), (8 : ℚ)) (by decide)

unseal Rat.mul Rat.inv Rat.add Rat.sub in
/-- C1. In correction mode, for every printable-character keystroke
applied while the session is unfinished and the cursor is inside the target
text: the cursor advances by 1 **iff** the typed character equals the
expected character; every mismatched attempt increments `totalErrors` by
exactly 1, increments the expected character's per-key error count by
exactly 1, sets `correctionMarks[cursor] = true`, and leaves the cursor
unchanged.  Scenario B: target `"ab"` with keystrokes `x, a, b` ends with
cursor 2, one error, marks `[true, false]`, and a finished session. -/
theorem correction_mode_cursor_and_errors :
    (∀ (t0 d now : Nat) (target : List Char) (evs : List Event) (c : Char),
      ∀ a, a = (App.new t0 target true d).applyEvents evs →
      a.is_finished = false →
      a.current_position < target.length →
      (((a.handle_key_event now (KeyCode.char c)).current_position =
          a.current_position + 1) ↔
        c = target.getD a.current_position ' ') ∧
      (¬ c = target.getD a.current_position ' ' →
        (a.handle_key_event now (KeyCode.char c)).errors = a.errors + 1 ∧
        (a.handle_key_event now (KeyCode.char c)).keyErrors
            (target.getD a.current_position ' ') =
          a.keyErrors (target.getD a.current_position ' ') + 1 ∧
        (a.handle_key_event now (KeyCode.char c)).correction_attempts.getD
            a.current_position false = true ∧
        (a.handle_key_event now (KeyCode.char c)).current_position =
          a.current_position)) ∧
    (((App.new 0 ['a', 'b'] true 30).applyEvents
        [(0, KeyCode.char 'x'), (0, KeyCode.char 'a'),
         (0, KeyCode.char 'b')]).current_position = 2 ∧
      ((App.new 0 ['a', 'b'] true 30).applyEvents
        [(0, KeyCode.char 'x'), (0, KeyCode.char 'a'),
         (0, KeyCode.char 'b')]).errors = 1 ∧
      ((App.new 0 ['a', 'b'] true 30).applyEvents
        [(0, KeyCode.char 'x'), (0, KeyCode.char 'a'),
         (0, KeyCode.char 'b')]).correction_attempts = [true, false] ∧
      ((App.new 0 ['a', 'b'] true 30).applyEvents
        [(0, KeyCode.char 'x'), (0, KeyCode.char 'a'),
         (0, KeyCode.char 'b')]).is_finished = true) := by
  constructor
  · intro t0 d now target evs c a ha hfin hpos
    have hInv : SessionInv target true a := by
      rw [ha]; exact SessionInv.run t0 target true d evs
    rw [App.handle_char_eq hfin]
    have hb : SessionInv target true (a.on_first_keystroke now) := hInv.on_first now
    have hposb : (a.on_first_keystroke now).current_position < target.length := by
      simpa using hpos
    by_cases hc : c = target.getD a.current_position ' '
    · have hcb : c = target.getD (a.on_first_keystroke now).current_position ' ' := by
        simpa using hc
      have hhit := App.on_char_hit hb now hposb hcb
      refine ⟨?_, fun hcn => absurd hc hcn⟩
      rw [hhit]
      simp [hc]
    · have hcb : ¬ c = target.getD (a.on_first_keystroke now).current_position ' ' := by
        simpa using hc
      obtain ⟨h1, h2, h3, h4, h5⟩ := App.on_char_miss_correction hb now hposb hcb
      simp only [App.on_first_current_position, App.on_first_errors,
        App.on_first_keyErrors] at h1 h2 h4 h5
      constructor
      · rw [h1]
        exact ⟨fun hh => absurd hh (by omega), fun hh => absurd hh hc⟩
      · exact fun _ => ⟨h2, h4, by simpa using h5, h1⟩
  · exact ⟨by decide, by decide, by decide, by decide⟩

unseal Rat.mul Rat.inv Rat.add Rat.sub in
/-- Witness for `correction_mode_cursor_and_errors`: on the fresh correction
session with target `"ab"`, typing `x` leaves the cursor at 0 (`x ≠ 'a'`),
increments the error counters, and marks position 0. -/
theorem correction_mode_cursor_and_errors_witness :
    (((App.new 0 ['a', 'b'] true 30).handle_key_event 0
        (KeyCode.char 'x')).current_position = 0 + 1 ↔
      'x' = ['a', 'b'].getD 0 ' ') ∧
    (¬ 'x' = ['a', 'b'].getD 0 ' ' →
      ((App.new 0 ['a', 'b'] true 30).handle_key_event 0
          (KeyCode.char 'x')).errors = 0 + 1 ∧
      ((App.new 0 ['a', 'b'] true 30).handle_key_event 0
          (KeyCode.char 'x')).keyErrors (['a', 'b'].getD 0 ' ') =
        (App.new 0 ['a', 'b'] true 30).keyErrors (['a', 'b'].getD 0 ' ') + 1 ∧
      ((App.new 0 ['a', 'b'] true 30).handle_key_event 0
          (KeyCode.char 'x')).correction_attempts.getD 0 false = true ∧
      ((App.new 0 ['a', 'b'] true 30).handle_key_event 0
          (KeyCode.char 'x')).current_position = 0) := by
  have h := (correction_mode_cursor_and_errors).1 0 30 0 ['a', 'b'] [] 'x'
    (App.new 0 ['a', 'b'] true 30) rfl (by decide) (by decide)
  exact h

unseal Rat.mul Rat.inv Rat.add Rat.sub in
/-- C2. In normal mode, every printable-character keystroke applied while
the session is unfinished and the cursor is inside the target text advances
the cursor by 1 regardless of correctness; a mismatch additionally
increments `totalErrors`, records an error against the expected character,
and sets `correctionMarks[cursor] = true` at the position the cursor was on
before advancing.  Scenario A: target `"abc"` with keystrokes `a, x, c` ends
with cursor 3, one error, marks `[false, true, false]`, and a finished
session. -/
theorem normal_mode_cursor_and_errors :
    (∀ (t0 d now : Nat) (target : List Char) (evs : List Event) (c : Char),
      ∀ a, a = (App.new t0 target false d).applyEvents evs →
      a.is_finished = false →
      a.current_position < target.length →
      (a.handle_key_event now (KeyCode.char c)).current_position =
        a.current_position + 1 ∧
      (¬ c = target.getD a.current_position ' ' →
        (a.handle_key_event now (KeyCode.char c)).errors = a.errors + 1 ∧
        (a.handle_key_event now (KeyCode.char c)).keyErrors
            (target.getD a.current_position ' ') =
          a.keyErrors (target.getD a.current_position ' ') + 1 ∧
        (a.handle_key_event now (KeyCode.char c)).correction_attempts.getD
            a.current_position false = true)) ∧
    (((App.new 0 ['a', 'b', 'c'] false 30).applyEvents
        [(0, KeyCode.char 'a'), (0, KeyCode.char 'x'),
         (0, KeyCode.char 'c')]).current_position = 3 ∧
      ((App.new 0 ['a', 'b', 'c'] false 30).applyEvents
        [(0, KeyCode.char 'a'), (0, KeyCode.char 'x'),
         (0, KeyCode.char 'c')]).errors = 1 ∧
      ((App.new 0 ['a', 'b', 'c'] false 30).applyEvents
        [(0, KeyCode.char 'a'), (0, KeyCode.char 'x'),
         (0, KeyCode.char 'c')]).correction_attempts = [false, true, false] ∧
      ((App.new 0 ['a', 'b', 'c'] false 30).applyEvents
        [(0, KeyCode.char 'a'), (0, KeyCode.char 'x'),
         (0, KeyCode.char 'c')]).is_finished = true) := by
  constructor
  · intro t0 d now target evs c a ha hfin hpos
    have hInv : SessionInv target false a := by
      rw [ha]; exact SessionInv.run t0 target false d evs
    rw [App.handle_char_eq hfin]
    have hb : SessionInv target false (a.on_first_keystroke now) := hInv.on_first now
    have hposb : (a.on_first_keystroke now).current_position < target.length := by
      simpa using hpos
    by_cases hc : c = target.getD a.current_position ' '
    · have hcb : c = target.getD (a.on_first_keystroke now).current_position ' ' := by
        simpa using hc
      have hhit := App.on_char_hit hb now hposb hcb
      refine ⟨by simpa using hhit, fun hcn => absurd hc hcn⟩
    · have hcb : ¬ c = target.getD (a.on_first_keystroke now).current_position ' ' := by
        simpa using hc
      obtain ⟨h1, h2, h3, h4, h5⟩ := App.on_char_miss_normal hb now hposb hcb
      simp only [App.on_first_current_position, App.on_first_errors,
        App.on_first_keyErrors] at h1 h2 h4 h5
      exact ⟨h1, fun _ => ⟨h2, h4, by simpa using h5⟩⟩
  · exact ⟨by decide, by decide, by decide, by decide⟩

unseal Rat.mul Rat.inv Rat.add Rat.sub in
/-- Witness for `normal_mode_cursor_and_errors`: on the fresh normal-mode
session with target `"ab"`, typing `x` advances the cursor to 1 and
increments the error counters while marking position 0. -/
theorem normal_mode_cursor_and_errors_witness :
    ((App.new 0 ['a', 'b'] false 30).handle_key_event 0
        (KeyCode.char 'x')).current_position = 0 + 1 ∧
    (¬ 'x' = ['a', 'b'].getD 0 ' ' →
      ((App.new 0 ['a', 'b'] false 30).handle_key_event 0
          (KeyCode.char 'x')).errors = 0 + 1 ∧
      ((App.new 0 ['a', 'b'] false 30).handle_key_event 0
          (KeyCode.char 'x')).keyErrors (['a', 'b'].getD 0 ' ') =
        (App.new 0 ['a', 'b'] false 30).keyErrors (['a', 'b'].getD 0 ' ') + 1 ∧
      ((App.new 0 ['a', 'b'] false 30).handle_key_event 0
          (KeyCode.char 'x')).correction_attempts.getD 0 false = true) := by
  have h := (normal_mode_cursor_and_errors).1 0 30 0 ['a', 'b'] [] 'x'
    (App.new 0 ['a', 'b'] false 30) rfl (by decide) (by decide)
  exact h

unseal Rat.mul Rat.inv Rat.add Rat.sub in
/-- C9. In an unfinished session a backspace with non-empty echo removes
the echo's last character and increments `totalKeystrokes`, and decrements
the cursor by 1 when it is positive; no backspace (finished or not) ever
changes `totalErrors`, any correction mark, or any recorded per-key metric.
Scenario C: typing `a` correctly on target `"ab"` and then one backspace
leaves cursor 0, an empty echo, no errors, and the KeyMetric for `'a'` still
holding its one recorded latency sample. -/
theorem backspace_effects_and_frame :
    (∀ (t0 d now : Nat) (target : List Char) (rc : Bool) (evs : List Event),
      ∀ a, a = (App.new t0 target rc d).applyEvents evs →
      (a.is_finished = false → ¬ a.user_input.isEmpty →
        (a.handle_key_event now KeyCode.backspace).user_input =
          a.user_input.dropLast ∧
        (a.handle_key_event now KeyCode.backspace).total_keystrokes =
          a.total_keystrokes + 1 ∧
        (0 < a.current_position →
          (a.handle_key_event now KeyCode.backspace).current_position =
            a.current_position - 1)) ∧
      ((a.handle_key_event now KeyCode.backspace).errors = a.errors ∧
        (a.handle_key_event now KeyCode.backspace).correction_attempts =
          a.correction_attempts ∧
        (a.handle_key_event now KeyCode.backspace).key_metrics =
          a.key_metrics)) ∧
    (((App.new 0 ['a', 'b'] false 30).applyEvents
        [(0, KeyCode.char 'a'), (0, KeyCode.backspace)]).current_position = 0 ∧
      ((App.new 0 ['a', 'b'] false 30).applyEvents
        [(0, KeyCode.char 'a'), (0, KeyCode.backspace)]).user_input = [] ∧
      ((App.new 0 ['a', 'b'] false 30).applyEvents
        [(0, KeyCode.char 'a'), (0, KeyCode.backspace)]).errors = 0 ∧
      alistGet ((App.new 0 ['a', 'b'] false 30).applyEvents
        [(0, KeyCode.char 'a'), (0, KeyCode.backspace)]).key_metrics 'a' =
        some { times := [0], errors := 0 }) := by
  constructor
  · intro t0 d now target rc evs a _
    constructor
    · intro hfin hne
      rw [App.handle_backspace_eq hfin]
      have hne' : ¬ (a.on_first_keystroke now).user_input.isEmpty := by
        simpa using hne
      obtain ⟨g1, g2, g3, g4⟩ := App.on_backspace_nonempty now hne'
      simp only [App.on_first_user_input, App.on_first_total_keystrokes,
        App.on_first_current_position] at g1 g2 g3
      exact ⟨g1, g2, g3⟩
    · by_cases hfin : a.is_finished = true
      · unfold App.handle_key_event
        rw [if_pos hfin]
        exact ⟨rfl, rfl, rfl⟩
      · rw [App.handle_backspace_eq (by simpa using hfin)]
        simp
  · exact ⟨by decide, by decide, by decide, by decide⟩

unseal Rat.mul Rat.inv Rat.add Rat.sub in
/-- Witness for `backspace_effects_and_frame`: after one correct keystroke
on target `"ab"`, a backspace removes the echoed character, counts as a
keystroke, and retreats the cursor to 0. -/
theorem backspace_effects_and_frame_witness :
    (((App.new 0 ['a', 'b'] false 30).applyEvents
        [(0, KeyCode.char 'a')]).handle_key_event 0
          KeyCode.backspace).user_input =
      ((App.new 0 ['a', 'b'] false 30).applyEvents
        [(0, KeyCode.char 'a')]).user_input.dropLast ∧
    (((App.new 0 ['a', 'b'] false 30).applyEvents
        [(0, KeyCode.char 'a')]).handle_key_event 0
          KeyCode.backspace).total_keystrokes =
      ((App.new 0 ['a', 'b'] false 30).applyEvents
        [(0, KeyCode.char 'a')]).total_keystrokes + 1 ∧
    (0 < ((App.new 0 ['a', 'b'] false 30).applyEvents
        [(0, KeyCode.char 'a')]).current_position →
      (((App.new 0 ['a', 'b'] false 30).applyEvents
          [(0, KeyCode.char 'a')]).handle_key_event 0
            KeyCode.backspace).current_position =
        ((App.new 0 ['a', 'b'] false 30).applyEvents
          [(0, KeyCode.char 'a')]).current_position - 1) :=
  ((backspace_effects_and_frame).1 0 30 0 ['a', 'b'] false
      [(0, KeyCode.char 'a')] _ rfl).1 (by decide) (by decide)

lemma mem_insertDescBySnd {x q : Char × ℚ} :
    ∀ {l : List (Char × ℚ)}, q ∈ insertDescBySnd x l → q = x ∨ q ∈ l := by
  intro l
  induction l with
  | nil => intro h; simpa [insertDescBySnd] using h
  | cons y ys ih =>
    intro h
    unfold insertDescBySnd at h
    split at h
    · rcases List.mem_cons.mp h with h | h
      · exact Or.inl h
      · exact Or.inr h
    · rcases List.mem_cons.mp h with h | h
      · exact Or.inr (h ▸ List.mem_cons_self y ys)
      · rcases ih h with h | h
        · exact Or.inl h
        · exact Or.inr (List.mem_cons_of_mem y h)

lemma mem_sortDescBySnd {q : Char × ℚ} :
    ∀ {l : List (Char × ℚ)}, q ∈ sortDescBySnd l → q ∈ l := by
  intro l
  induction l with
  | nil => intro h; simp [sortDescBySnd] at h
  | cons y ys ih =>
    intro h
    rcases mem_insertDescBySnd (l := sortDescBySnd ys) h with h | h
    · exact h ▸ List.mem_cons_self y ys
    · exact List.mem_cons_of_mem y (ih h)

unseal Rat.mul Rat.inv Rat.add Rat.sub in
/-- C10. For every key in the metrics map of a reachable session state,
the recorded error count never exceeds the number of recorded latency
samples; consequently `samples − errors` in the most-accurate ranking and in
the accuracy heatmap never underflows, and every per-key accuracy value
returned by the ranking lies in `[0, 100]`. -/
theorem per_key_errors_le_samples (t0 d : Nat) (target : List Char)
    (rc : Bool) (evs : List Event) (count : Nat) :
    let a := (App.new t0 target rc d).applyEvents evs
    (∀ p ∈ a.key_metrics, p.2.errors ≤ p.2.times.length) ∧
    (∀ (ck : Char) (m : KeyMetrics), alistGet a.key_metrics ck = some m →
      m.errors ≤ m.times.length) ∧
    (∀ q ∈ a.get_most_accurate_keys count, 0 ≤ q.2 ∧ q.2 ≤ 100) := by
  have hInv := SessionInv.run t0 target rc d evs
  dsimp only
  revert hInv
  generalize (App.new t0 target rc d).applyEvents evs = a
  intro hInv
  refine ⟨hInv.key_err_le, fun ck m hm => hInv.key_err_le _ (alistGet_mem hm), ?_⟩
  intro q hq
  unfold App.get_most_accurate_keys at hq
  have hq' := mem_sortDescBySnd (List.take_subset _ _ hq)
  obtain ⟨p, hp, hpq⟩ := List.mem_filterMap.mp hq'
  by_cases hemp : p.2.times.isEmpty
  · rw [if_pos hemp] at hpq
    exact absurd hpq (by simp)
  · rw [if_neg hemp] at hpq
    dsimp only at hpq
    injection hpq with hpq
    have hlen : 0 < p.2.times.length :=
      List.length_pos.mpr (fun hnil => hemp (by simp [hnil]))
    have hlenQ : (0 : ℚ) < (p.2.times.length : ℚ) := by exact_mod_cast hlen
    have hsub : ((p.2.times.length - p.2.errors : Nat) : ℚ) /
        (p.2.times.length : ℚ) ≤ 1 := by
      rw [div_le_one hlenQ]
      exact_mod_cast Nat.sub_le _ _
    rw [← hpq]
    dsimp only
    constructor
    · positivity
    · nlinarith

unseal Rat.mul Rat.inv Rat.add Rat.sub in
/-- Witness for `per_key_errors_le_samples`: in a concrete run with one
wrong keystroke on target `"a"`, the accuracy value reported for `'a'` lies
in `[0, 100]`. -/
theorem per_key_errors_le_samples_witness :
    0 ≤ (('a', (0 : ℚ)) : Char × ℚ).2 ∧ (('a', (0 : ℚ)) : Char × ℚ).2 ≤ 100 :=
  (per_key_errors_le_samples 0 30 ['a'] false
      [(0, KeyCode.char 'x')] 3).2.2
    ('a', (0 : ℚ)) (by decide)

/-- Modelled from the spec: the number of "correctly-advanced characters" in
an event sequence — keystrokes delivered while the session is unfinished, at
a valid cursor position, whose character equals the expected character at
the cursor.  The spec's WPM glossary divides this count by 5 and by the
elapsed minutes. -/
def correctAdvances : App → List Event → Nat
  | _, [] => 0
  | a, e :: rest =>
    (match e.2 with
      | KeyCode.char c =>
        if a.is_finished = false ∧ a.current_position < a.target_chars.length ∧
            c = a.target_chars.getD a.current_position ' ' then 1 else 0
      | KeyCode.backspace => 0
      | KeyCode.other => 0) +
      correctAdvances (a.handle_key_event e.1 e.2) rest

unseal Rat.mul Rat.inv Rat.add Rat.sub in
/-- C6, counterexample:  Normal mode, target `"ab"`: a wrong `x` at 0 s
advances the cursor to 1 without emitting a sample, and a correct `b` at 3 s
advances it to 2 and emits the sample `(3, 8)`: `8 = (2/5)/(3/60)` uses the
cursor (2), not the count of correctly-advanced characters (1), whose
spec value would be `(1/5)/(3/60) = 4 ≠ 8`. -/
theorem wpm_counts_cursor_not_correct_advances_cex :
    ((App.new 0 ['a', 'b'] false 30).applyEvents
        [(0, KeyCode.char 'x'), (3000000000, KeyCode.char 'b')]).wpm_data_points =
      [(3, 8)] ∧
    correctAdvances (App.new 0 ['a', 'b'] false 30)
      [(0, KeyCode.char 'x'), (3000000000, KeyCode.char 'b')] = 1 ∧
    ((1 : ℚ) / 5) / (3 / 60) = 4 ∧ ((8 : ℚ)) ≠ 4 := by
  refine ⟨by decide, by decide, by decide, by decide⟩

lemma App.update_wpm_points {s : Nat} (X : App) (hs : X.start_time = some s)
    (now : Nat) :
    (X.update_wpm now).wpm_data_points = X.wpm_data_points ∨
    (X.update_wpm now).wpm_data_points =
      X.wpm_data_points ++
        [(((now - s : Nat) : ℚ) / 10 ^ 9,
          min ((X.current_position : ℚ) / 5 /
            (((now - s : Nat) : ℚ) / 10 ^ 9 / 60)) 500)] := by
  unfold App.update_wpm
  rw [hs]
  dsimp only
  split
  · exact Or.inr rfl
  · exact Or.inl rfl

lemma App.advance_points {s : Nat} (u : App) (v : List Char) (k : Nat)
    (hs : u.start_time = some s) (now : Nat) :
    ((({ u with user_input := v, total_keystrokes := k,
                current_position := u.current_position + 1 }).start_timing_current_key
        now).update_wpm now).wpm_data_points = u.wpm_data_points ∨
    ((({ u with user_input := v, total_keystrokes := k,
                current_position := u.current_position + 1 }).start_timing_current_key
        now).update_wpm now).wpm_data_points =
      u.wpm_data_points ++
        [(((now - s : Nat) : ℚ) / 10 ^ 9,
          min (((u.current_position + 1 : Nat) : ℚ) / 5 /
            (((now - s : Nat) : ℚ) / 10 ^ 9 / 60)) 500)] := by
  rcases App.update_wpm_points (s := s)
      (({ u with user_input := v, total_keystrokes := k,
                 current_position := u.current_position + 1 }).start_timing_current_key now)
      (by simp [hs]) now with h | h
  · exact Or.inl (by simpa using h)
  · exact Or.inr (by simpa using h)

lemma App.on_char_points {s : Nat} (b : App) (hs : b.start_time = some s)
    (now : Nat) (c : Char) :
    (b.on_char now c).wpm_data_points = b.wpm_data_points ∨
    ((b.on_char now c).start_time = some s ∧
      (b.on_char now c).wpm_data_points =
        b.wpm_data_points ++
          [(((now - s : Nat) : ℚ) / 10 ^ 9,
            min (((b.on_char now c).current_position : ℚ) / 5 /
              (((now - s : Nat) : ℚ) / 10 ^ 9 / 60)) 500)]) := by
  unfold App.on_char
  split
  case isFalse => exact Or.inl rfl
  case isTrue hpos =>
    dsimp only
    cases hck : b.current_key_start_time with
    | none =>
      dsimp only
      split
      case isTrue hrc =>
        split
        case isTrue hc =>
          rcases App.advance_points (s := s) b (b.user_input ++ [c])
              (b.total_keystrokes + 1) hs now with h | h
          · exact Or.inl (by split <;> simpa using h)
          · refine Or.inr ⟨by split <;> simpa using hs, ?_⟩
            split <;> simpa using h
        case isFalse hc =>
          exact Or.inl (by split <;> (split <;> simp))
      case isFalse hrc =>
        split
        case isTrue hc =>
          rcases App.advance_points (s := s) b (b.user_input ++ [c])
              (b.total_keystrokes + 1) hs now with h | h
          · exact Or.inl (by split <;> simpa using h)
          · refine Or.inr ⟨by split <;> simpa using hs, ?_⟩
            split <;> simpa using h
        case isFalse hc =>
          exact Or.inl (by split <;> (split <;> simp))
    | some ks =>
      dsimp only
      split
      case isTrue hrc =>
        split
        case isTrue hc =>
          rcases App.advance_points (s := s)
              ({ b with current_key_start_time := some ks,
                        key_metrics := (recordTime b.key_metrics
                          (b.target_chars.getD b.current_position ' ') (now - ks)) })
              (b.user_input ++ [c]) (b.total_keystrokes + 1)
              (by simpa using hs) now with h | h
          · exact Or.inl (by split <;> simpa using h)
          · refine Or.inr ⟨by split <;> simpa using hs, ?_⟩
            split <;> simpa using h
        case isFalse hc =>
          exact Or.inl (by split <;> (split <;> simp))
      case isFalse hrc =>
        split
        case isTrue hc =>
          rcases App.advance_points (s := s)
              ({ b with current_key_start_time := some ks,
                        key_metrics := (recordTime b.key_metrics
                          (b.target_chars.getD b.current_position ' ') (now - ks)) })
              (b.user_input ++ [c]) (b.total_keystrokes + 1)
              (by simpa using hs) now with h | h
          · exact Or.inl (by split <;> simpa using h)
          · refine Or.inr ⟨by split <;> simpa using hs, ?_⟩
            split <;> simpa using h
        case isFalse hc =>
          exact Or.inl (by split <;> (split <;> simp))

/-- C6, amended:  Every emitted WPM sample is stamped with the elapsed
seconds and its value equals (cursor position at sample time / 5) divided by
the elapsed minutes, capped at 500 — where the cursor is the session's
`current_position`, which in normal mode also counts positions advanced by
incorrect keystrokes (see `wpm_counts_cursor_not_correct_advances_cex`). -/
theorem wpm_sample_value_formula (a : App) (now : Nat) (key : KeyCode) :
    (a.handle_key_event now key).wpm_data_points = a.wpm_data_points ∨
    ∃ s : Nat, (a.handle_key_event now key).start_time = some s ∧
      (a.handle_key_event now key).wpm_data_points =
        a.wpm_data_points ++
          [(((now - s : Nat) : ℚ) / 10 ^ 9,
            min (((a.handle_key_event now key).current_position : ℚ) / 5 /
              (((now - s : Nat) : ℚ) / 10 ^ 9 / 60)) 500)] := by
  unfold App.handle_key_event
  split
  case isTrue => exact Or.inl rfl
  case isFalse hfin =>
    dsimp only
    cases key with
    | backspace => exact Or.inl (by simp)
    | other => exact Or.inl (by simp)
    | char c =>
      have hbs : ∃ s, (a.on_first_keystroke now).start_time = some s := by
        unfold App.on_first_keystroke
        cases hst : a.start_time with
        | none => exact ⟨now, by simp⟩
        | some s => exact ⟨s, by simp [hst]⟩
      obtain ⟨s, hs⟩ := hbs
      rcases App.on_char_points _ hs now c with h | ⟨h1, h2⟩
      · exact Or.inl (by simpa using h)
      · exact Or.inr ⟨s, h1, by simpa using h2⟩

lemma getD_mod_mem {l : List (List Char)} (hne : l ≠ []) (k : Nat) :
    l.getD (k % l.length) [] ∈ l := by
  have hlen : 0 < l.length := List.length_pos.mpr hne
  have hk : k % l.length < l.length := Nat.mod_lt _ hlen
  rw [List.getD_eq_getElem?_getD, List.getElem?_eq_getElem hk]
  exact List.getElem_mem hk

lemma word_text_loop_success (words : List (List Char)) (rng : Nat → Nat)
    (hne : words ≠ []) (hw : ∀ w ∈ words, w ≠ []) :
    ∀ (fuel i : Nat) (text : List Char),
      MIN_TEXT_LENGTH + 1 ≤ text.length + fuel → 1 ≤ fuel →
      ∃ t, word_text_loop words rng i text fuel = some t ∧
        MIN_TEXT_LENGTH ≤ t.length := by
  intro fuel
  induction fuel with
  | zero => intro i text _ h1; omega
  | succ f ih =>
    intro i text hfuel _
    unfold word_text_loop
    split
    case isTrue hlong => exact ⟨text, rfl, hlong⟩
    case isFalse hshort =>
      dsimp only
      have hword : words.getD (rng i % words.length) [] ∈ words :=
        getD_mod_mem hne _
      have hwlen : 1 ≤ (words.getD (rng i % words.length) []).length :=
        List.length_pos.mpr (hw _ hword)
      have hnew : text.length + 1 ≤
          (if text.isEmpty = true then text ++ words.getD (rng i % words.length) []
           else text ++ [' '] ++ words.getD (rng i % words.length) []).length := by
        split <;> (simp only [List.length_append, List.length_cons,
          List.length_nil]; omega)
      exact ih (i + 1) _ (by omega) (by omega)

lemma generate_word_text_success (words : List (List Char)) (rng : Nat → Nat)
    (hne : words ≠ []) (hw : ∀ w ∈ words, w ≠ []) :
    ∃ t, generate_word_text words rng = some t ∧ MIN_TEXT_LENGTH ≤ t.length := by
  unfold generate_word_text
  rw [if_neg (by simpa using hne)]
  exact word_text_loop_success words rng hne hw (MIN_TEXT_LENGTH + 1) 0 []
    (by omega) (by omega)

lemma generate_builtin_text_success (rng : Nat → Nat) :
    ∃ t, generate_builtin_text rng = some t ∧ MIN_TEXT_LENGTH ≤ t.length := by
  unfold generate_builtin_text
  exact word_text_loop_success sample_texts rng (by decide)
    (by decide) (MIN_TEXT_LENGTH + 1) 0 [] (by omega) (by omega)

lemma load_google10k_words_ne_nil (content : List Char) (maxlen : Nat) :
    ∀ w ∈ load_google10k_words content maxlen, w ≠ [] := by
  intro w hw hnil
  unfold load_google10k_words at hw
  have hcond := (List.mem_filter.mp hw).2
  rw [hnil] at hcond
  simp [MIN_WORD_LENGTH] at hcond

lemma load_system_dict_words_ne_nil (content : List Char) (maxlen : Nat) :
    ∀ w ∈ load_system_dict_words content maxlen, w ≠ [] := by
  intro w hw hnil
  unfold load_system_dict_words at hw
  have hcond := (List.mem_filter.mp hw).2
  rw [hnil] at hcond
  simp [MIN_WORD_LENGTH] at hcond

/-- C7, counterexample:  A word-list content whose length/lowercase
filter keeps no word (here two 2-letter lines, filtered away by the
`MIN_WORD_LENGTH = 3` bound): `generate_google10k_text` has no fallback and
panics (`gen_range` on the empty range, modelled as `none`) instead of
returning a built-in text of at least 500 characters — although the
built-in generator itself would have succeeded. -/
theorem google_empty_filter_panics_cex :
    load_google10k_words ("ab\nxy".toList) 7 = [] ∧
    generate_google10k_text ("ab\nxy".toList) 7 (fun _ => 0) = none ∧
    (∃ t, generate_builtin_text (fun _ => 0) = some t ∧
      MIN_TEXT_LENGTH ≤ t.length) :=
  ⟨by decide, by decide, generate_builtin_text_success (fun _ => 0)⟩

/-- C7, amended:  The system-dictionary path falls back to the built-in
excerpts when the dictionary is unavailable or filters to empty, and always
returns a text of at least `MIN_TEXT_LENGTH = 500` characters; the built-in
generator always succeeds with at least 500 characters; the google path has
**no** fallback: on an empty filtered word list generation fails (an
empty-range `gen_range` panic, modelled as `none`), and it succeeds with at
least 500 characters exactly when the filtered list is non-empty. -/
theorem text_generation_fallback_amended :
    (∀ (maxlen : Nat) (rng : Nat → Nat),
      ∃ t, generate_system_dict_text none maxlen rng = some t ∧
        MIN_TEXT_LENGTH ≤ t.length) ∧
    (∀ (content : List Char) (maxlen : Nat) (rng : Nat → Nat),
      ∃ t, generate_system_dict_text (some content) maxlen rng = some t ∧
        MIN_TEXT_LENGTH ≤ t.length) ∧
    (∀ (rng : Nat → Nat),
      ∃ t, generate_builtin_text rng = some t ∧ MIN_TEXT_LENGTH ≤ t.length) ∧
    (∀ (content : List Char) (maxlen : Nat) (rng : Nat → Nat),
      load_google10k_words content maxlen = [] →
        generate_google10k_text content maxlen rng = none) ∧
    (∀ (content : List Char) (maxlen : Nat) (rng : Nat → Nat),
      load_google10k_words content maxlen ≠ [] →
        ∃ t, generate_google10k_text content maxlen rng = some t ∧
          MIN_TEXT_LENGTH ≤ t.length) := by
  refine ⟨?_, ?_, ?_, ?_, ?_⟩
  · intro maxlen rng
    unfold generate_system_dict_text
    exact generate_builtin_text_success rng
  · intro content maxlen rng
    unfold generate_system_dict_text
    dsimp only
    split
    · exact generate_builtin_text_success rng
    case isFalse hne =>
      exact generate_word_text_success _ rng (by simpa using hne)
        (load_system_dict_words_ne_nil content maxlen)
  · exact generate_builtin_text_success
  · intro content maxlen rng hempty
    unfold generate_google10k_text generate_word_text
    rw [hempty]
    simp
  · intro content maxlen rng hne
    unfold generate_google10k_text
    exact generate_word_text_success _ rng hne
      (load_google10k_words_ne_nil content maxlen)

/-- Witness for `text_generation_fallback_amended`: with the one-word
content `"abc"` the filtered google list is non-empty and generation
succeeds with at least 500 characters. -/
theorem text_generation_fallback_amended_witness :
    ∃ t, generate_google10k_text ("abc".toList) 7 (fun _ => 0) = some t ∧
      MIN_TEXT_LENGTH ≤ t.length :=
  text_generation_fallback_amended.2.2.2.2 ("abc".toList) 7 (fun _ => 0)
    (by decide)

unseal Rat.mul Rat.inv Rat.add Rat.sub in
/-- C8, counterexample:  Three keys typed correctly with latencies 0 ms,
83 ms and 100 ms give mean latencies 0, 83 and 100 ms, so the relative
position of `'b'` is exactly `(83 − 0)/(100 − 0) = 0.83`.  The claim says a
relative position of exactly 0.83 or above yields "slowest" (`red`), but the
code's strict `> 0.83` comparison yields "slow" (`lightRed`, the source's
`Color::Rgb(255, 99, 71)`). -/
theorem speed_band_boundary_cex :
    ((App.new 0 ['a', 'b', 'c'] false 30).applyEvents
        [(0, KeyCode.char 'a'), (83000000, KeyCode.char 'b'),
         (183000000, KeyCode.char 'c')]).key_metrics =
      [('a', { times := [0], errors := 0 }),
       ('b', { times := [83000000], errors := 0 }),
       ('c', { times := [100000000], errors := 0 })] ∧
    ((App.new 0 ['a', 'b', 'c'] false 30).applyEvents
        [(0, KeyCode.char 'a'), (83000000, KeyCode.char 'b'),
         (183000000, KeyCode.char 'c')]).get_key_speed_color 'b' =
      TuiColor.lightRed ∧
    ((App.new 0 ['a', 'b', 'c'] false 30).applyEvents
        [(0, KeyCode.char 'a'), (83000000, KeyCode.char 'b'),
         (183000000, KeyCode.char 'c')]).get_key_speed_color 'b' ≠
      TuiColor.red :=
  ⟨by decide, by decide, by decide⟩

/-- C8, amended:  `get_key_speed_color` returns `darkGray` ("unused")
without a recorded metric, `gray` ("no-data") without a computable mean,
with fewer than 2 computable means, or with a zero millisecond range, and
otherwise maps the relative position to bands with thresholds `< 0.16`
fastest, `< 0.33` fast, `< 0.67` medium, and slowest only **strictly
above** `0.83` — a relative position of exactly `0.83` yields slow (see
`speed_band_boundary_cex`). -/
theorem speed_band_thresholds_amended (a : App) (key : Char) :
    let all_times := a.key_metrics.filterMap (fun p => p.2.average_time)
    let lo := listMin all_times / 1000000
    let hi := listMax all_times / 1000000
    (alistGet a.key_metrics key = none →
      a.get_key_speed_color key = TuiColor.darkGray) ∧
    (∀ m, alistGet a.key_metrics key = some m → m.average_time = none →
      a.get_key_speed_color key = TuiColor.gray) ∧
    (∀ m avg, alistGet a.key_metrics key = some m → m.average_time = some avg →
      (all_times.length < 2 → a.get_key_speed_color key = TuiColor.gray) ∧
      (2 ≤ all_times.length →
        (hi - lo = 0 → a.get_key_speed_color key = TuiColor.gray) ∧
        (hi - lo ≠ 0 →
          a.get_key_speed_color key =
            (if ((avg / 1000000 - lo : Nat) : ℚ) / ((hi - lo : Nat) : ℚ) <
                16 / 100 then TuiColor.green
             else if ((avg / 1000000 - lo : Nat) : ℚ) / ((hi - lo : Nat) : ℚ) <
                33 / 100 then TuiColor.lightGreen
             else if ((avg / 1000000 - lo : Nat) : ℚ) / ((hi - lo : Nat) : ℚ) <
                67 / 100 then TuiColor.yellow
             else if ((avg / 1000000 - lo : Nat) : ℚ) / ((hi - lo : Nat) : ℚ) >
                83 / 100 then TuiColor.red
             else TuiColor.lightRed)))) := by
  dsimp only
  unfold App.get_key_speed_color
  refine ⟨fun hnone => ?_, fun m hm hnavg => ?_, fun m avg hm havg => ?_⟩
  · rw [hnone]
  · rw [hm]
    dsimp only
    rw [hnavg]
  · rw [hm]
    dsimp only
    rw [havg]
    dsimp only
    refine ⟨fun hlt => ?_, fun hge => ⟨fun hr0 => ?_, fun hrne => ?_⟩⟩
    · rw [if_pos hlt]
    · rw [if_neg (by omega)]
      rw [if_pos hr0]
    · rw [if_neg (by omega)]
      rw [if_neg hrne]
      split_ifs <;> first
        | rfl
        | (exfalso; linarith)

unseal Rat.mul Rat.inv Rat.add Rat.sub in
/-- Witness for `speed_band_thresholds_amended`: in the 0/83/100 ms run the
key `'c'` sits at relative position 1, strictly above 0.83, and is colored
`red`. -/
theorem speed_band_thresholds_amended_witness :
    ((App.new 0 ['a', 'b', 'c'] false 30).applyEvents
        [(0, KeyCode.char 'a'), (83000000, KeyCode.char 'b'),
         (183000000, KeyCode.char 'c')]).get_key_speed_color 'c' =
      TuiColor.red := by
  have h := (speed_band_thresholds_amended
      ((App.new 0 ['a', 'b', 'c'] false 30).applyEvents
        [(0, KeyCode.char 'a'), (83000000, KeyCode.char 'b'),
         (183000000, KeyCode.char 'c')]) 'c').2.2
    { times := [100000000], errors := 0 } 100000000 (by decide) (by decide)
  have h2 := (h.2 (by decide)).2 (by decide)
  rw [h2]
  decide
